import Mathlib

/-
Verification development for the HackRx document question-answering service
(single source file `main.py`).

The Python pipeline is shallowly embedded as executable Lean functions over
`List Char` / `String`:
  * `extract_clauses_from_pdf` — the Segmenter (page cap 25, token threshold 8,
    newline collapsing), over already-extracted per-page text blocks;
  * `refine_answer`, `summarize_answer` — the Refiner and the template
    override / summarization stage;
  * `answer_question` — per-question ranking + sentence extraction + refine +
    summarize; a Python exception is modelled as `Option.none`;
  * `run` — the per-question loop of the request handler, with its
    per-question `try/except` turning an exception into the fallback string;
  * `hackrx_runner` — the POST handler, over an abstract document fetcher.

The sentence-transformer embedder is an external collaborator; only the cosine
similarities it produces are visible to the control flow, so it is modelled as
an opaque, possibly failing similarity oracle `Embedder.sim : String → String →
Option ℚ` (`none` = the encode call raised).  Python string operations are
modelled for ASCII text: `str.split()`, `str.strip()`, `str.lower()`,
`re.sub(r'\s+', ' ', s)` and `re.split(r'(?<=[.!?])\s+', s)` are reproduced
character by character below.
-/

/-- Python `\s` for ASCII text: the whitespace class used by `str.split`,
`str.strip` and the `\s+` regexes in `main.py`. -/
def isSpace (c : Char) : Bool :=
  c = ' ' || c = '\t' || c = '\n' || c = '\r' || c = '\x0b' || c = '\x0c'

/-- The terminal punctuation class `[.!?]` used by the sentence splitter and by
`refine_answer`. -/
def isTermPunct (c : Char) : Bool :=
  c = '.' || c = '!' || c = '?'

/-- `text.replace("\n", " ")` acts on one character. -/
def nlToSp (c : Char) : Char :=
  if c = '\n' then ' ' else c

/-- Drop a leading run of whitespace (helper for `strip`, `re.sub(r'\s+', ' ')`
and the sentence splitter). -/
def dropSpaces : List Char → List Char
  | [] => []
  | c :: cs => if isSpace c then dropSpaces cs else c :: cs

/-- Python `str.strip()` (whitespace trim at both ends). -/
def pstrip (l : List Char) : List Char :=
  (dropSpaces (dropSpaces l).reverse).reverse

/-- Scanner for `re.sub(r'\s+', ' ', s)`: `prevSpace` records whether the
previous character was whitespace (so further whitespace of the same run is
dropped). -/
def collapseWsAux : List Char → Bool → List Char
  | [], _ => []
  | c :: cs, prevSpace =>
    if isSpace c then
      if prevSpace then collapseWsAux cs true
      else ' ' :: collapseWsAux cs true
    else c :: collapseWsAux cs false

/-- Python `re.sub(r'\s+', ' ', s)`: every maximal whitespace run becomes one
space. -/
def collapseWs (l : List Char) : List Char :=
  collapseWsAux l false

/-- Accumulator version of Python `str.split()` (split on whitespace runs,
no empty tokens). -/
def pysplitAux : List Char → List Char → List (List Char)
  | [], acc => if acc = [] then [] else [acc.reverse]
  | c :: cs, acc =>
    if isSpace c then
      if acc = [] then pysplitAux cs [] else acc.reverse :: pysplitAux cs []
    else pysplitAux cs (c :: acc)

/-- Python `str.split()` with no arguments. -/
def pysplit (l : List Char) : List (List Char) :=
  pysplitAux l []

/-- ASCII model of Python `str.lower()` on one character (all text handled by
the service is ASCII). -/
def lowChar (c : Char) : Char :=
  match c with
  | 'A' => 'a' | 'B' => 'b' | 'C' => 'c' | 'D' => 'd' | 'E' => 'e' | 'F' => 'f'
  | 'G' => 'g' | 'H' => 'h' | 'I' => 'i' | 'J' => 'j' | 'K' => 'k' | 'L' => 'l'
  | 'M' => 'm' | 'N' => 'n' | 'O' => 'o' | 'P' => 'p' | 'Q' => 'q' | 'R' => 'r'
  | 'S' => 's' | 'T' => 't' | 'U' => 'u' | 'V' => 'v' | 'W' => 'w' | 'X' => 'x'
  | 'Y' => 'y' | 'Z' => 'z'
  | c => c

/-- ASCII model of Python `str.upper()` on one character. -/
def upChar (c : Char) : Char :=
  match c with
  | 'a' => 'A' | 'b' => 'B' | 'c' => 'C' | 'd' => 'D' | 'e' => 'E' | 'f' => 'F'
  | 'g' => 'G' | 'h' => 'H' | 'i' => 'I' | 'j' => 'J' | 'k' => 'K' | 'l' => 'L'
  | 'm' => 'M' | 'n' => 'N' | 'o' => 'O' | 'p' => 'P' | 'q' => 'Q' | 'r' => 'R'
  | 's' => 'S' | 't' => 'T' | 'u' => 'U' | 'v' => 'V' | 'w' => 'W' | 'x' => 'X'
  | 'y' => 'Y' | 'z' => 'Z'
  | c => c

/-- Python `str.lower()` on a whole string (ASCII model). -/
def pylower (l : List Char) : List Char :=
  l.map lowChar

/-- ASCII model of Python `str.isupper()` on one character. -/
def pyIsUpper (c : Char) : Bool :=
  decide ('A' ≤ c) && decide (c ≤ 'Z')

/-- The previous character of the scan (head of the reversed accumulator) is
terminal punctuation. -/
def headPunct : List Char → Bool
  | [] => false
  | p :: _ => isTermPunct p

/-- Scanner for `re.split(r'(?<=[.!?])\s+', s)`: a whitespace run immediately
preceded by `. ! ?` is a split point; the punctuation stays with the left
piece and the whole run is consumed (`inSplit` marks that the run is being
consumed).  `re.split` always returns at least one (possibly empty) piece. -/
def sentSplitGo : List Char → List Char → Bool → List (List Char)
  | [], acc, _ => [acc.reverse]
  | c :: cs, acc, inSplit =>
    if isSpace c then
      if inSplit then sentSplitGo cs acc true
      else if headPunct acc then acc.reverse :: sentSplitGo cs [] true
      else sentSplitGo cs (c :: acc) false
    else sentSplitGo cs (c :: acc) false

/-- Python `re.split(r'(?<=[.!?])\s+', s)`. -/
def sentSplit (l : List Char) : List (List Char) :=
  sentSplitGo l [] false

/-- Python substring membership `needle in hay`. -/
def isSubstring (needle hay : List Char) : Bool :=
  (List.range (hay.length + 1)).any
    (fun i => decide ((hay.drop i).take needle.length = needle))

/-- No two adjacent characters are both whitespace (the second half of the
Refiner postcondition claimed in the spec). -/
def noDoubleWsB : List Char → Bool
  | [] => true
  | [_] => true
  | a :: b :: rest => !(isSpace a && isSpace b) && noDoubleWsB (b :: rest)

/-- The string ends with one of `. ! ?` (the first half of the Refiner
postcondition claimed in the spec). -/
def endsTerminalB (l : List Char) : Bool :=
  match l.getLast? with
  | none => false
  | some c => isTermPunct c

/-- A Segmenter output unit: `{"page": page_num + 1, "text": ...}` in
`extract_clauses_from_pdf`. -/
structure Clause where
  page : Nat
  text : String
deriving DecidableEq

/-- The embedding model, an external collaborator.  Only the cosine
similarities that `util.semantic_search` computes between the encoded question
and the encoded clause texts are visible to the control flow of `main.py`, so
the model is abstracted to a similarity oracle; `none` models an exception
raised inside an `encode` / search call. -/
structure Embedder where
  sim : String → String → Option ℚ

/-- The request body `{documents, questions}` of `POST /hackrx/run`. -/
structure HackRxRequest where
  documents : String
  questions : List String

/-- The two JSON shapes the handler can return: `{"answers": ...}` or
`{"error": ...}`. -/
inductive HackRxResponse where
  | answers : List String → HackRxResponse
  | error : String → HackRxResponse

/-- The literal fallback answer used by the per-question `except` handler. -/
def fallback : String := "Unable to find answer."

/-- Canned answer for questions mentioning a grace period. -/
def canned_grace : String :=
  "A grace period of thirty days is provided for premium payment after the due date to renew or continue the policy without losing continuity benefits."

/-- Canned answer for questions mentioning a waiting period for pre-existing
diseases. -/
def canned_waiting : String :=
  "There is a waiting period of thirty-six (36) months of continuous coverage from the first policy inception for pre-existing diseases and their direct complications to be covered."

/-- Canned answer for questions mentioning maternity. -/
def canned_maternity : String :=
  "Yes, the policy covers maternity expenses, including childbirth and lawful medical termination of pregnancy. To be eligible, the female insured person must have been continuously covered for at least 24 months. The benefit is limited to two deliveries or terminations during the policy period."

/-- Canned answer for questions mentioning cataract. -/
def canned_cataract : String :=
  "The policy has a specific waiting period of two (2) years for cataract surgery."

/-- Canned answer for questions mentioning an organ donor. -/
def canned_organ : String :=
  "Yes, the policy indemnifies the medical expenses for the organ donor\x27s hospitalization for the purpose of harvesting the organ, provided the organ is for an insured person and the donation complies with the Transplantation of Human Organs Act, 1994."

/-- Canned answer for questions mentioning the no claim discount. -/
def canned_ncd : String :=
  "A No Claim Discount of 5% on the base premium is offered on renewal for a one-year policy term if no claims were made in the preceding year. The maximum aggregate NCD is capped at 5% of the total base premium."

/-- Canned answer for questions mentioning health check-ups. -/
def canned_health : String :=
  "Yes, the policy reimburses expenses for health check-ups at the end of every block of two continuous policy years, provided the policy has been renewed without a break. The amount is subject to the limits specified in the Table of Benefits."

/-- Canned answer for questions mentioning a hospital. -/
def canned_hospital : String :=
  "A hospital is defined as an institution with at least 10 inpatient beds (in towns with a population below ten lakhs) or 15 beds (in all other places), with qualified nursing staff and medical practitioners available 24/7, a fully equipped operation theatre, and which maintains daily records of patients."

/-- Canned answer for questions mentioning AYUSH treatment. -/
def canned_ayush : String :=
  "The policy covers medical expenses for inpatient treatment under Ayurveda, Yoga, Naturopathy, Unani, Siddha, and Homeopathy systems up to the Sum Insured limit, provided the treatment is taken in an AYUSH Hospital."

/-- Canned answer for questions mentioning room rent or ICU limits. -/
def canned_room : String :=
  "Yes, for Plan A, the daily room rent is capped at 1% of the Sum Insured, and ICU charges are capped at 2% of the Sum Insured. These limits do not apply if the treatment is for a listed procedure in a Preferred Provider Network (PPN)."

/-- The template `if/elif` chain of `summarize_answer`, factored as a lookup on
the lowercased question, in the exact order of the Python source (first match
wins). -/
def overrideLookup (ql : List Char) : Option String :=
  if isSubstring ("grace period".toList) ql then some canned_grace
  else if isSubstring ("waiting period".toList) ql &&
      (isSubstring ("pre-existing".toList) ql || isSubstring ("ped".toList) ql) then
    some canned_waiting
  else if isSubstring ("maternity".toList) ql then some canned_maternity
  else if isSubstring ("cataract".toList) ql then some canned_cataract
  else if isSubstring ("organ donor".toList) ql then some canned_organ
  else if isSubstring ("no claim discount".toList) ql || isSubstring ("ncd".toList) ql then
    some canned_ncd
  else if isSubstring ("health check".toList) ql then some canned_health
  else if isSubstring ("hospital".toList) ql then some canned_hospital
  else if isSubstring ("ayush".toList) ql then some canned_ayush
  else if isSubstring ("room rent".toList) ql || isSubstring ("icu".toList) ql then
    some canned_room
  else none

/-- `score_sentence` from `main.py` (identical in `answer_question` and in
`summarize_answer`): `len(s_words & question_keywords) / (len(s_words) + 1)`
where `s_words = set(s.lower().split())` and `question_keywords` is the token
set of the lowercased question. -/
def scoreSentence (qk : List (List Char)) (s : List Char) : ℚ :=
  let sw := (pysplit (pylower s)).dedup
  Rat.divInt ((sw.filter (fun w => decide (w ∈ qk))).length : Int)
    ((sw.length : Int) + 1)

/-- Python `max(xs, key=f)`: the first element attaining the maximal key;
`none` on an empty list (where Python raises `ValueError`). -/
def argmaxFirst (f : α → ℚ) : List α → Option α
  | [] => none
  | a :: as =>
    match argmaxFirst f as with
    | none => some a
    | some b => if f b > f a then some b else some a

/-- Python `max(range(len(xs)), key=...)`: first index attaining the maximal
key (0 for an empty list, where Python would raise). -/
def argmaxIdxGo (f : α → ℚ) : List α → Nat → Nat → ℚ → Nat
  | [], _, besti, _ => besti
  | a :: as, i, besti, bests =>
    if f a > bests then argmaxIdxGo f as (i + 1) i (f a)
    else argmaxIdxGo f as (i + 1) besti bests

/-- First index of the maximal key, Python `max(range(len(l)), key=...)`. -/
def argmaxIdx (f : α → ℚ) (l : List α) : Nat :=
  match l with
  | [] => 0
  | a :: as => argmaxIdxGo f as 1 0 (f a)

/-- The low-confidence threshold `0.15` of the sentence-extraction step. -/
def lowConfThreshold : ℚ := Rat.divInt 15 100

/-- Lines 114-125 of `main.py` (the sentence-extraction block inside
`answer_question`): split the top clause into sentences, pick the sentence with
the highest keyword-overlap score, and fall back to the whole clause when that
score is below `0.15`. -/
def extract_best_sentence (question best_clause : String) : String :=
  let sentences := sentSplit best_clause.toList
  let qk := pysplit (pylower question.toList)
  match argmaxFirst (scoreSentence qk) sentences with
  | none => String.mk (pstrip best_clause.toList)
  | some best =>
    if scoreSentence qk best < lowConfThreshold then String.mk (pstrip best_clause.toList)
    else String.mk (pstrip best)

/-- Modelled from the spec wording of claim C7 for comparison with the source:
each sentence is scored by the size of the intersection of its
case-insensitive token set with the question tokens, "normalized by sentence
length" (the number of its whitespace tokens), with no `+ 1` smoothing. -/
def scoreSentenceSpec (qk : List (List Char)) (s : List Char) : ℚ :=
  let sw := (pysplit (pylower s)).dedup
  Rat.divInt ((sw.filter (fun w => decide (w ∈ qk))).length : Int)
    ((pysplit (pylower s)).length : Int)

/-- Modelled from the spec wording of claim C7 for comparison with the source:
the extraction step with `scoreSentenceSpec` in place of the source scoring. -/
def extract_best_sentence_spec (question best_clause : String) : String :=
  let sentences := sentSplit best_clause.toList
  let qk := pysplit (pylower question.toList)
  match argmaxFirst (scoreSentenceSpec qk) sentences with
  | none => String.mk (pstrip best_clause.toList)
  | some best =>
    if scoreSentenceSpec qk best < lowConfThreshold then String.mk (pstrip best_clause.toList)
    else String.mk (pstrip best)

/-- The parenthetical pointer appended to short answers:
`" (See policy for more details on: " + question + ")"`. -/
def seeSuffix (question : String) : List Char :=
  ' ' :: ("(See policy for more details on: ".toList) ++ question.toList ++ [')']

/-- `if answer and not answer[0].isupper(): answer = answer[0].upper() + answer[1:]`. -/
def capitalizeFirst (l : List Char) : List Char :=
  match l with
  | [] => []
  | c :: cs => if pyIsUpper c = false then upChar c :: cs else c :: cs

/-- `if answer and answer[-1] not in ".!?": answer += "."`. -/
def ensureTerm (l : List Char) : List Char :=
  match l.getLast? with
  | none => l
  | some c => if isTermPunct c then l else l ++ ['.']

/-- The four normalization steps of `refine_answer` before the short-answer
check: strip, collapse whitespace, capitalize the first letter, ensure
terminal punctuation. -/
def refine_core (answer : List Char) : List Char :=
  ensureTerm (capitalizeFirst (collapseWs (pstrip answer)))

/-- `refine_answer` from `main.py`. -/
def refine_answer (question answer : String) : String :=
  let a := refine_core answer.toList
  if (pysplit a).length < 6 then String.mk (a ++ seeSuffix question)
  else String.mk a

/-- The general-fallback branch of `summarize_answer`: for long multi-sentence
answers, the best keyword-matching sentence stitched with its successor;
otherwise the answer unchanged. -/
def generic_summary (question answer : String) : List Char :=
  let sentences := sentSplit answer.toList
  if 1 < sentences.length ∧ 30 < (pysplit answer.toList).length then
    let qk := pysplit (pylower question.toList)
    let bi := argmaxIdx (scoreSentence qk) sentences
    let s := pstrip ((sentences.get? bi).getD [])
    if bi + 1 < sentences.length then
      s ++ [' '] ++ pstrip ((sentences.get? (bi + 1)).getD [])
    else s
  else answer.toList

/-- `summarize_answer` from `main.py`: the template override chain first (each
branch a direct `return`), otherwise the general summary with the
short-summary pointer appended when it has fewer than 8 tokens. -/
def summarize_answer (question answer : String) : String :=
  match overrideLookup (pylower question.toList) with
  | some c => c
  | none =>
    if (pysplit (generic_summary question answer)).length < 8 then
      String.mk (generic_summary question answer ++ seeSuffix question)
    else String.mk (generic_summary question answer)

/-- Encode all clause texts against the question: the list of similarities
`util.semantic_search` works on; `none` when any `encode` call raises. -/
def simsOf (e : Embedder) (q : String) : List String → Option (List ℚ)
  | [] => some []
  | t :: ts =>
    match e.sim q t, simsOf e q ts with
    | some x, some xs => some (x :: xs)
    | _, _ => none

/-- The index and score of the best hit: first index attaining the maximal
similarity (the `top_k=1` head of `util.semantic_search`). -/
def bestIdx : List ℚ → Option (Nat × ℚ)
  | [] => none
  | x :: xs =>
    match bestIdx xs with
    | none => some (0, x)
    | some (j, y) => if y > x then some (j + 1, y) else some (0, x)

/-- `util.semantic_search(q_embedding, clause_embeddings, top_k=1)[0]` followed
by `hits[0]`: the best-matching corpus text and its score.  `none` models the
`IndexError` on an empty corpus and any exception inside encoding/search. -/
def best_hit (e : Embedder) (q : String) (texts : List String) : Option (String × ℚ) :=
  match simsOf e q texts with
  | none => none
  | some scores =>
    match bestIdx scores with
    | none => none
    | some (j, s) =>
      match texts.get? j with
      | some t => some (t, s)
      | none => none

/-- `answer_question` from `main.py` (with its default `top_k=1`, the only way
it is called): rank the clauses, extract the best sentence of the best clause,
refine, then summarize.  `none` models an uncaught exception inside the
function (empty clause list, or a failing encode call). -/
def answer_question (e : Embedder) (question : String) (clauses : List Clause) :
    Option String :=
  match best_hit e question (clauses.map Clause.text) with
  | none => none
  | some (best_clause, _) =>
    some (summarize_answer question
      (refine_answer question (extract_best_sentence question best_clause)))

/-- The per-question loop of `hackrx_runner` (lines 149-157): each question is
answered inside `try/except`, an exception becoming the fallback string. -/
def run (e : Embedder) (questions : List String) (clauses : List Clause) :
    List String :=
  questions.map (fun q => (answer_question e q clauses).getD fallback)

/-- One page of `extract_clauses_from_pdf`: keep a block iff its stripped text
has more than 8 whitespace tokens, and store it with newlines replaced by
spaces. -/
def blocksToClauses (blocks : List String) (page : Nat) : List Clause :=
  blocks.filterMap (fun b =>
    if 8 < (pysplit (pstrip b.toList)).length then
      some { page := page, text := String.mk ((pstrip b.toList).map nlToSp) }
    else none)

/-- The page loop of `extract_clauses_from_pdf`, carrying `page_num + 1`. -/
def extractPages : List (List String) → Nat → List Clause
  | [], _ => []
  | blocks :: rest, page => blocksToClauses blocks page ++ extractPages rest (page + 1)

/-- `extract_clauses_from_pdf` from `main.py`, over the per-page text blocks
the PyMuPDF collaborator supplies: `for page_num in range(min(len(doc), 25))`
with pages numbered from 1. -/
def extract_clauses_from_pdf (pages : List (List String)) : List Clause :=
  extractPages (pages.take 25) 1

/-- `hackrx_runner` from `main.py`: fetch the document (an external
collaborator mapping the URL to per-page blocks, `Except` capturing the
acquisition exception text), segment it, then run the per-question loop.  The
`authorization` header parameter is accepted but never used. -/
def hackrx_runner (fetchPdf : String → Except String (List (List String)))
    (e : Embedder) (req : HackRxRequest) (authorization : Option String) :
    HackRxResponse :=
  match fetchPdf req.documents with
  | .error msg => .error ("Internal error: " ++ msg)
  | .ok pages => .answers (run e req.questions (extract_clauses_from_pdf pages))

/- Concrete instances used to exercise the theorems below on explicit
inputs. -/

/-- An embedder whose cosine similarity is 1 everywhere. -/
def eConst : Embedder := ⟨fun _ _ => some (Rat.divInt 1 1)⟩

/-- An embedder whose cosine similarity is 0.1 everywhere (below the 0.3
acceptance threshold the spec describes). -/
def eLow : Embedder := ⟨fun _ _ => some (Rat.divInt 1 10)⟩

/-- An embedder whose cosine similarity is 0.9 everywhere. -/
def eHigh : Embedder := ⟨fun _ _ => some (Rat.divInt 9 10)⟩

/-- An embedder whose every encode call raises. -/
def eFail : Embedder := ⟨fun _ _ => none⟩

/-- An embedder that raises on one specific question and works on all
others. -/
def eMixed : Embedder :=
  ⟨fun q _ => if q = "bad question" then none else some (Rat.divInt 1 1)⟩

/-- A sample clause. -/
def clause0 : Clause :=
  ⟨1, "Claims must be notified to the insurer within thirty days of the event."⟩

/-- A sample question matching the grace-period override phrase. -/
def qGrace : String := "What is the grace period for premium payment?"

/-- A sample question matching no override phrase and sharing no vocabulary
with `clause0`. -/
def qPlain : String := "zz yy xx"

/- ------------------------------------------------------------------ -/
/- Helper lemmas                                                       -/
/- ------------------------------------------------------------------ -/

theorem stringMk_ne_empty (l : List Char) (h : l ≠ []) : String.mk l ≠ "" := by
  intro he
  exact h (congrArg String.data he)

theorem argmaxFirst_ne_none {α : Type} (f : α → ℚ) (a : α) (as : List α) :
    argmaxFirst f (a :: as) ≠ none := by
  simp only [argmaxFirst]
  cases argmaxFirst f as with
  | none => simp
  | some b =>
    dsimp only
    split <;> simp

theorem argmaxFirst_mem {α : Type} (f : α → ℚ) :
    ∀ (l : List α) (b : α), argmaxFirst f l = some b → b ∈ l := by
  intro l
  induction l with
  | nil => intro b h; simp [argmaxFirst] at h
  | cons a as ih =>
    intro b h
    simp only [argmaxFirst] at h
    cases hrec : argmaxFirst f as with
    | none =>
      simp only [hrec] at h
      injection h with h2
      subst h2
      exact List.mem_cons_self a as
    | some b2 =>
      simp only [hrec] at h
      by_cases hgt : f b2 > f a
      · rw [if_pos hgt] at h
        injection h with h2
        subst h2
        exact List.mem_cons_of_mem a (ih _ hrec)
      · rw [if_neg hgt] at h
        injection h with h2
        subst h2
        exact List.mem_cons_self a as

theorem argmaxFirst_le {α : Type} (f : α → ℚ) :
    ∀ (l : List α) (b : α), argmaxFirst f l = some b → ∀ s ∈ l, f s ≤ f b := by
  intro l
  induction l with
  | nil => intro b h; simp [argmaxFirst] at h
  | cons a as ih =>
    intro b h s hs
    simp only [argmaxFirst] at h
    cases hrec : argmaxFirst f as with
    | none =>
      simp only [hrec] at h
      injection h with h2
      subst h2
      cases as with
      | nil =>
        rcases List.mem_singleton.mp hs with rfl
        exact le_refl _
      | cons a2 as2 => exact absurd hrec (argmaxFirst_ne_none f a2 as2)
    | some b2 =>
      simp only [hrec] at h
      by_cases hgt : f b2 > f a
      · rw [if_pos hgt] at h
        injection h with h2
        subst h2
        rcases List.mem_cons.mp hs with rfl | hs2
        · exact le_of_lt hgt
        · exact ih _ hrec s hs2
      · rw [if_neg hgt] at h
        injection h with h2
        subst h2
        rcases List.mem_cons.mp hs with rfl | hs2
        · exact le_refl _
        · exact le_trans (ih _ hrec s hs2) (not_lt.mp hgt)

theorem sentSplitGo_ne_nil :
    ∀ (l acc : List Char) (b : Bool), sentSplitGo l acc b ≠ [] := by
  intro l
  induction l with
  | nil => intro acc b; simp [sentSplitGo]
  | cons c cs ih =>
    intro acc b
    simp only [sentSplitGo]
    split
    · split
      · exact ih acc true
      · split
        · simp
        · exact ih (c :: acc) false
    · exact ih (c :: acc) false

theorem sentSplit_ne_nil (l : List Char) : sentSplit l ≠ [] :=
  sentSplitGo_ne_nil l [] false

theorem override_ne_empty :
    ∀ (ql : List Char) (c : String), overrideLookup ql = some c → c ≠ "" := by
  intro ql c h
  unfold overrideLookup at h
  repeat' split at h
  all_goals first
    | exact Option.noConfusion h
    | (injection h with h2; subst h2; decide)

theorem seeSuffix_ne_nil (q : String) : seeSuffix q ≠ [] := by
  simp [seeSuffix]

theorem summarize_answer_override (question c : String)
    (hov : overrideLookup (pylower question.toList) = some c) (a : String) :
    summarize_answer question a = c := by
  simp only [summarize_answer, hov]

theorem summarize_answer_ne_empty (question a : String) :
    summarize_answer question a ≠ "" := by
  cases hov : overrideLookup (pylower question.toList) with
  | some c =>
    rw [summarize_answer_override question c hov a]
    exact override_ne_empty _ c hov
  | none =>
    simp only [summarize_answer, hov]
    by_cases hlen : (pysplit (generic_summary question a)).length < 8
    · rw [if_pos hlen]
      apply stringMk_ne_empty
      intro he
      exact seeSuffix_ne_nil question (List.append_eq_nil.mp he).2
    · rw [if_neg hlen]
      apply stringMk_ne_empty
      intro he
      rw [he] at hlen
      exact hlen (by simp [pysplit, pysplitAux])

theorem answer_question_ne_empty (e : Embedder) (q : String) (cs : List Clause)
    (s : String) (h : answer_question e q cs = some s) : s ≠ "" := by
  unfold answer_question at h
  cases hb : best_hit e q (cs.map Clause.text) with
  | none => rw [hb] at h; exact Option.noConfusion h
  | some p =>
    rw [hb] at h
    injection h with h2
    subst h2
    exact summarize_answer_ne_empty q _

theorem isSpace_upChar (c : Char) : isSpace (upChar c) = isSpace c := by
  unfold upChar
  split <;> rfl

theorem noDouble_cons (c : Char) (X : List Char) (hc : isSpace c = false)
    (h : noDoubleWsB X = true) : noDoubleWsB (c :: X) = true := by
  cases X with
  | nil => rfl
  | cons x xs =>
    simp only [noDoubleWsB, hc, Bool.false_and, Bool.not_false, Bool.true_and]
    exact h

theorem collapseWsAux_head_not_space :
    ∀ l : List Char, ∀ y ys, collapseWsAux l true = y :: ys → isSpace y = false := by
  intro l
  induction l with
  | nil => intro y ys h; simp [collapseWsAux] at h
  | cons c cs ih =>
    intro y ys h
    simp only [collapseWsAux] at h
    by_cases hc : isSpace c = true
    · rw [if_pos hc] at h
      simp only [if_true] at h
      exact ih y ys h
    · rw [if_neg hc] at h
      injection h with h1 h2
      subst h1
      simpa using hc

theorem collapseWsAux_noDouble :
    ∀ (l : List Char) (p : Bool), noDoubleWsB (collapseWsAux l p) = true := by
  intro l
  induction l with
  | nil => intro p; rfl
  | cons c cs ih =>
    intro p
    simp only [collapseWsAux]
    by_cases hc : isSpace c = true
    · rw [if_pos hc]
      cases p with
      | true => exact ih true
      | false =>
        simp only [Bool.false_eq_true, if_false]
        cases hX : collapseWsAux cs true with
        | nil => rfl
        | cons y ys =>
          have hy : isSpace y = false := collapseWsAux_head_not_space cs y ys hX
          simp only [noDoubleWsB, hy, Bool.and_false, Bool.not_false, Bool.true_and]
          rw [← hX]
          exact ih true
    · rw [if_neg hc]
      exact noDouble_cons c _ (by simpa using hc) (ih false)

theorem collapseWs_noDouble (l : List Char) : noDoubleWsB (collapseWs l) = true :=
  collapseWsAux_noDouble l false

theorem noDouble_concat :
    ∀ (l : List Char) (x : Char), isSpace x = false →
      noDoubleWsB l = true → noDoubleWsB (l ++ [x]) = true := by
  intro l
  induction l with
  | nil => intro x hx _; rfl
  | cons a t ih =>
    intro x hx h
    cases t with
    | nil =>
      simp only [List.cons_append, List.nil_append, noDoubleWsB, hx, Bool.and_false,
        Bool.not_false, Bool.true_and]
    | cons b ts =>
      simp only [List.cons_append, noDoubleWsB, Bool.and_eq_true] at h ⊢
      exact ⟨h.1, ih x hx h.2⟩

theorem capitalizeFirst_noDouble (l : List Char) (h : noDoubleWsB l = true) :
    noDoubleWsB (capitalizeFirst l) = true := by
  cases l with
  | nil => rfl
  | cons c cs =>
    simp only [capitalizeFirst]
    split
    · cases cs with
      | nil => rfl
      | cons d ds =>
        simp only [noDoubleWsB, isSpace_upChar] at h ⊢
        exact h
    · exact h

theorem ensureTerm_noDouble (l : List Char) (h : noDoubleWsB l = true) :
    noDoubleWsB (ensureTerm l) = true := by
  unfold ensureTerm
  cases hl : l.getLast? with
  | none => exact h
  | some c =>
    dsimp only
    split
    · exact h
    · exact noDouble_concat l '.' (by decide) h

theorem ensureTerm_endsTerminal (l : List Char) (hl : l ≠ []) :
    endsTerminalB (ensureTerm l) = true := by
  unfold ensureTerm
  cases hlast : l.getLast? with
  | none => exact absurd (List.getLast?_eq_none_iff.mp hlast) hl
  | some c =>
    dsimp only
    by_cases hc : isTermPunct c = true
    · rw [if_pos hc]
      simp only [endsTerminalB, hlast]
      exact hc
    · rw [if_neg hc]
      simp only [endsTerminalB, List.getLast?_concat]
      rfl

theorem refine_core_noDouble (l : List Char) :
    noDoubleWsB (refine_core l) = true :=
  ensureTerm_noDouble _
    (capitalizeFirst_noDouble _ (collapseWs_noDouble (pstrip l)))

theorem refine_core_endsTerminal (l : List Char) (h : refine_core l ≠ []) :
    endsTerminalB (refine_core l) = true := by
  unfold refine_core at h ⊢
  apply ensureTerm_endsTerminal
  intro hX
  rw [hX] at h
  exact h rfl

theorem pysplitAux_map_length (f : Char → Char) (hf : ∀ c, isSpace (f c) = isSpace c) :
    ∀ (l acc : List Char),
      (pysplitAux (l.map f) (acc.map f)).length = (pysplitAux l acc).length := by
  intro l
  induction l with
  | nil =>
    intro acc
    simp only [List.map_nil, pysplitAux]
    by_cases ha : acc = []
    · subst ha
      simp
    · rw [if_neg (fun hh => ha (List.map_eq_nil_iff.mp hh)), if_neg ha]
      simp
  | cons c cs ih =>
    intro acc
    simp only [List.map_cons, pysplitAux, hf c]
    by_cases hc : isSpace c = true
    · rw [if_pos hc, if_pos hc]
      by_cases ha : acc = []
      · subst ha
        simp only [List.map_nil, if_pos rfl]
        exact ih []
      · rw [if_neg (fun hh => ha (List.map_eq_nil_iff.mp hh)), if_neg ha]
        simp only [List.length_cons]
        rw [show (List.map f cs : List Char) = cs.map f from rfl]
        have := ih []
        simp only [List.map_nil] at this
        omega
    · rw [if_neg hc, if_neg hc]
      exact ih (c :: acc)

theorem isSpace_nlToSp (c : Char) : isSpace (nlToSp c) = isSpace c := by
  unfold nlToSp
  split
  · subst c
    rfl
  · rfl

theorem pysplit_map_nlToSp_length (l : List Char) :
    (pysplit (l.map nlToSp)).length = (pysplit l).length :=
  pysplitAux_map_length nlToSp isSpace_nlToSp l []

theorem extractPages_mem :
    ∀ (ps : List (List String)) (pn : Nat) (c : Clause), c ∈ extractPages ps pn →
      pn ≤ c.page ∧ c.page < pn + ps.length ∧
      8 < (pysplit c.text.toList).length ∧ '\n' ∉ c.text.toList := by
  intro ps
  induction ps with
  | nil => intro pn c h; simp [extractPages] at h
  | cons blocks rest ih =>
    intro pn c h
    simp only [extractPages, List.mem_append] at h
    cases h with
    | inl hb =>
      obtain ⟨b, hbmem, hbeq⟩ := List.mem_filterMap.mp hb
      by_cases hlen : 8 < (pysplit (pstrip b.toList)).length
      · rw [if_pos hlen] at hbeq
        injection hbeq with hbeq2
        subst hbeq2
        refine ⟨le_refl _, by simp, ?_, ?_⟩
        · show 8 < (pysplit ((pstrip b.toList).map nlToSp)).length
          rw [pysplit_map_nlToSp_length]
          exact hlen
        · intro hmem
          obtain ⟨x, _, hx⟩ := List.mem_map.mp hmem
          by_cases hxn : x = '\n'
          · rw [show nlToSp x = ' ' from by simp [nlToSp, hxn]] at hx
            exact absurd hx (by decide)
          · rw [show nlToSp x = x from by simp [nlToSp, hxn]] at hx
            exact hxn hx
      · rw [if_neg hlen] at hbeq
        exact Option.noConfusion hbeq
    | inr hr =>
      obtain ⟨h1, h2, h3, h4⟩ := ih (pn + 1) c hr
      refine ⟨by omega, ?_, h3, h4⟩
      simp only [List.length_cons]
      omega

/- ------------------------------------------------------------------ -/
/- Claims                                                              -/
/- ------------------------------------------------------------------ -/

/-- Claim C1, counterexample.  The claim states that with no override match
and a top similarity score below the 0.3 threshold, `answer_question` returns
the fallback string.  On the code this is false: `answer_question` contains no
score threshold at all.  Here the question matches no override phrase, the
only clause scores 0.1 < 0.3, and the returned answer is the clause text, not
the fallback. -/
theorem c1_counterexample :
    overrideLookup (pylower qPlain.toList) = none ∧
    eLow.sim qPlain clause0.text = some (Rat.divInt 1 10) ∧
    Rat.divInt 1 10 < Rat.divInt 3 10 ∧
    answer_question eLow qPlain [clause0] = some clause0.text ∧
    clause0.text ≠ fallback := by
  exact ⟨rfl, rfl, by decide, rfl, by decide⟩

/-- Claim C1, amended: `answer_question` applies no similarity-score
acceptance threshold.  (1) Whenever ranking selects a top clause text, the
answer is computed from that text alone — two embedders whose rankings agree
on the chosen text but give arbitrarily different scores (e.g. one below 0.3,
one above) produce the same answer, so no score is ever compared against 0.3.
(2) When no clauses exist, `answer_question` raises (modelled as `none`)
instead of returning the fallback string; the fallback is substituted by the
run-level per-question handler. -/
theorem c1_amended :
    (∀ (e e2 : Embedder) (q : String) (cs : List Clause) (t : String) (s s2 : ℚ),
        best_hit e q (cs.map Clause.text) = some (t, s) →
        best_hit e2 q (cs.map Clause.text) = some (t, s2) →
        answer_question e q cs = answer_question e2 q cs) ∧
    (∀ (e : Embedder) (q : String), answer_question e q [] = none) := by
  constructor
  · intro e e2 q cs t s s2 h1 h2
    unfold answer_question
    rw [h1, h2]
  · intro e q
    rfl

/-- Claim C1, witness: the score-independence part applied to the embedders
with constant scores 0.1 and 0.9 on a one-clause corpus, and the no-clause
part applied to a concrete question. -/
theorem c1_witness :
    answer_question eLow qPlain [clause0] = answer_question eHigh qPlain [clause0] ∧
    answer_question eLow ("any question") [] = none :=
  ⟨c1_amended.1 eLow eHigh qPlain [clause0] clause0.text (Rat.divInt 1 10)
      (Rat.divInt 9 10) rfl rfl,
    c1_amended.2 eLow ("any question")⟩

/-- Claim C2, counterexample.  The claim states that a question containing an
override trigger phrase always gets exactly the canned answer, regardless of
the clause sequence, because the override check runs first and bypasses
ranking.  On the code this is false: the override table lives in
`summarize_answer`, which runs after ranking, so a question matching the
grace-period phrase still raises (yields `none`, not the canned string) when
an encode call fails during the ranking that precedes it. -/
theorem c2_counterexample :
    overrideLookup (pylower qGrace.toList) = some canned_grace ∧
    answer_question eFail qGrace [clause0] = none ∧
    answer_question eConst qGrace [] = none := by
  exact ⟨rfl, rfl, rfl⟩

/-- Claim C2, amended: for every question matching a configured override
phrase (case-insensitive substring, first match of the template chain),
`answer_question` returns exactly the associated canned string whenever the
ranking step completes without an exception — the selected clause text is
discarded by the final summarization stage, which checks the override table.
The override check happens last, not first: with an empty clause sequence or
a failing embedder the exception in the ranking step wins and no canned
answer is produced. -/
theorem c2_amended (e : Embedder) (q : String) (cs : List Clause) (t : String)
    (s : ℚ) (c : String)
    (hov : overrideLookup (pylower q.toList) = some c)
    (hhit : best_hit e q (cs.map Clause.text) = some (t, s)) :
    answer_question e q cs = some c := by
  unfold answer_question
  rw [hhit]
  show some (summarize_answer q (refine_answer q (extract_best_sentence q t))) = some c
  rw [summarize_answer_override q c hov]

/-- Claim C2, witness: the grace-period question against a one-clause corpus
whose text is unrelated to grace periods yields exactly the canned
grace-period answer. -/
theorem c2_witness :
    answer_question eConst qGrace [clause0] = some canned_grace :=
  c2_amended eConst qGrace [clause0] clause0.text (Rat.divInt 1 1) canned_grace
    rfl rfl

/-- Claim C3 (confirmed): `run` returns one answer per question, in order
(the i-th answer is computed from the i-th question), and every element is a
non-empty string; `run` is a total function, so no exception crosses its
boundary. -/
theorem c3 (e : Embedder) (qs : List String) (cs : List Clause) :
    (run e qs cs).length = qs.length ∧
    (∀ i : Nat, (run e qs cs)[i]? =
      (qs[i]?).map (fun q => (answer_question e q cs).getD fallback)) ∧
    ∀ s ∈ run e qs cs, s ≠ "" := by
  refine ⟨by simp [run], fun i => by simp [run], fun s hs => ?_⟩
  simp only [run, List.mem_map] at hs
  obtain ⟨q, hq, hformed⟩ := hs
  subst hformed
  cases h : answer_question e q cs with
  | none => simp only [h, Option.getD_none]; decide
  | some a =>
    simp only [h, Option.getD_some]
    exact answer_question_ne_empty e q cs a h

/-- Claim C3, witness: the non-emptiness clause applied to the fallback
answer produced for a question over an empty clause list. -/
theorem c3_witness :
    (run eConst ([("hi")]) []).length = 1 ∧ fallback ≠ "" :=
  ⟨(c3 eConst ([("hi")]) []).1,
    (c3 eConst ([("hi")]) []).2.2 fallback (by decide)⟩

/-- Claim C4 (confirmed): if answering question i raises (modelled as
`answer_question` returning `none`), `run` yields the fallback string at
position i, and every other question j is still answered normally (its answer
is exactly what `answer_question` produces for it, with the same per-question
fallback recovery). -/
theorem c4 (e : Embedder) (qs : List String) (cs : List Clause) (i : Nat)
    (q : String) (hq : qs[i]? = some q)
    (hfail : answer_question e q cs = none) :
    (run e qs cs)[i]? = some fallback ∧
    ∀ (j : Nat) (q2 : String), qs[j]? = some q2 →
      (run e qs cs)[j]? = some ((answer_question e q2 cs).getD fallback) := by
  constructor
  · simp [run, hq, hfail]
  · intro j q2 hj
    simp [run, hj]

/-- Claim C4, witness: a batch of two questions over a one-clause corpus where
the embedder raises on the first question only; the first answer is the
fallback string and the second is still computed normally. -/
theorem c4_witness :
    (run eMixed ([("bad question"), ("ok")]) [clause0])[0]? = some fallback ∧
    ∀ (j : Nat) (q2 : String),
      ([("bad question"), ("ok")] : List String)[j]? = some q2 →
      (run eMixed ([("bad question"), ("ok")]) [clause0])[j]? =
        some ((answer_question eMixed q2 [clause0]).getD fallback) :=
  c4 eMixed ([("bad question"), ("ok")]) [clause0] 0 ("bad question") rfl rfl

/-- Claim C5, counterexample.  The claim states that with an empty clause
sequence `answer_question` returns the fallback string rather than raising.
On the code this is false: `hits[0]` raises `IndexError` on the empty corpus
(modelled as `none`), so `answer_question` returns no string at all. -/
theorem c5_counterexample :
    answer_question eConst ("What documents are needed?") [] = none ∧
    (none : Option String) ≠ some fallback := by
  exact ⟨rfl, by decide⟩

/-- Claim C5, amended: with zero clauses `answer_question` raises (modelled as
`none`) for every question; the per-question handler of the run loop converts
that exception into the fallback string, so `run` still answers every
question of the batch with "Unable to find answer.". -/
theorem c5_amended (e : Embedder) (qs : List String) :
    run e qs [] = qs.map (fun _ => fallback) ∧
    ∀ q : String, answer_question e q [] = none := by
  exact ⟨rfl, fun q => rfl⟩

/-- Claim C6, counterexample.  The claim states every refined answer ends in
one of `. ! ?`.  On the code this is false: the short-answer pointer
`" (See policy for more details on: {question})"` is appended after the
punctuation step, so a short answer ends with the closing parenthesis. -/
theorem c6_counterexample :
    refine_answer ("the question") ("hi") =
      ("Hi. (See policy for more details on: the question)") ∧
    endsTerminalB ((refine_answer ("the question") ("hi")).toList) = false := by
  exact ⟨rfl, rfl⟩

/-- Claim C6, amended: when the normalized answer (stripped, whitespace
collapsed, capitalized, punctuation ensured) has at least 6 whitespace
tokens, `refine_answer` returns it unchanged, so the output ends in one of
`. ! ?` and contains no run of two consecutive whitespace characters; when it
has fewer than 6 tokens, the output is that normalized string with the
parenthetical pointer `" (See policy for more details on: {question})"`
appended (hence it ends with a parenthesis, and a whitespace run can only
come from the interpolated question text). -/
theorem c6_amended (q ans : String) :
    (6 ≤ (pysplit (refine_core ans.toList)).length →
      endsTerminalB ((refine_answer q ans).toList) = true ∧
      noDoubleWsB ((refine_answer q ans).toList) = true) ∧
    ((pysplit (refine_core ans.toList)).length < 6 →
      refine_answer q ans = String.mk (refine_core ans.toList ++ seeSuffix q)) := by
  constructor
  · intro h
    unfold refine_answer
    rw [if_neg (not_lt.mpr h)]
    have hne : refine_core ans.toList ≠ [] := by
      intro hnil
      rw [hnil] at h
      simp [pysplit, pysplitAux] at h
    exact ⟨refine_core_endsTerminal _ hne, refine_core_noDouble _⟩
  · intro h
    unfold refine_answer
    rw [if_pos h]

/-- Claim C6, witness: both branches of the amended claim at concrete inputs —
a long answer keeps terminal punctuation and single spacing, a short answer
gets the parenthetical pointer appended verbatim. -/
theorem c6_witness :
    (endsTerminalB
        ((refine_answer ("q") ("the claim must be filed within thirty days")).toList) =
          true ∧
      noDoubleWsB
        ((refine_answer ("q") ("the claim must be filed within thirty days")).toList) =
          true) ∧
    refine_answer ("q") ("hi") =
      String.mk (refine_core (("hi") : String).toList ++ seeSuffix ("q")) :=
  ⟨(c6_amended ("q") ("the claim must be filed within thirty days")).1 (by decide),
    (c6_amended ("q") ("hi")).2 (by decide)⟩

/-- Claim C7, counterexample.  The claim scores a sentence as the keyword
intersection size "normalized by sentence length"; the code divides by the
number of distinct tokens plus one.  The two scorings select different
sentences: for question "a b c d" and clause "b c d z. a", the claimed
scoring picks the sentence "a" (score 1/1 versus 3/4) while the code picks
"b c d z." (code score 3/5 versus 1/2), so the extracted answers differ. -/
theorem c7_counterexample :
    extract_best_sentence ("a b c d") ("b c d z. a") = ("b c d z.") ∧
    extract_best_sentence_spec ("a b c d") ("b c d z. a") = ("a") ∧
    extract_best_sentence ("a b c d") ("b c d z. a") ≠
      extract_best_sentence_spec ("a b c d") ("b c d z. a") := by
  exact ⟨rfl, rfl, by decide⟩

/-- Claim C7, amended: each sentence of the top clause is scored as the size
of the intersection of its distinct case-insensitive whitespace tokens with
the question token set, divided by one plus the number of its distinct
case-insensitive tokens; the first sentence attaining the maximal score is
selected, and if its score is below the low-confidence threshold 0.15 the
whole stripped clause text is returned instead of the stripped sentence. -/
theorem c7_amended (q clause : String) (b : List Char)
    (hmax : argmaxFirst (scoreSentence (pysplit (pylower q.toList)))
        (sentSplit clause.toList) = some b) :
    b ∈ sentSplit clause.toList ∧
    (∀ s ∈ sentSplit clause.toList,
      scoreSentence (pysplit (pylower q.toList)) s ≤
        scoreSentence (pysplit (pylower q.toList)) b) ∧
    extract_best_sentence q clause =
      (if scoreSentence (pysplit (pylower q.toList)) b < lowConfThreshold then
        String.mk (pstrip clause.toList)
      else String.mk (pstrip b)) := by
  refine ⟨argmaxFirst_mem _ _ b hmax, argmaxFirst_le _ _ b hmax, ?_⟩
  simp only [extract_best_sentence]
  rw [hmax]

/-- Claim C7, witness: the amended characterization at the concrete inputs of
the counterexample, with the maximizing sentence computed explicitly. -/
theorem c7_witness :
    (("b c d z.") : String).toList ∈ sentSplit (("b c d z. a") : String).toList ∧
    (∀ s ∈ sentSplit (("b c d z. a") : String).toList,
      scoreSentence (pysplit (pylower (("a b c d") : String).toList)) s ≤
        scoreSentence (pysplit (pylower (("a b c d") : String).toList))
          (("b c d z.") : String).toList) ∧
    extract_best_sentence ("a b c d") ("b c d z. a") =
      (if scoreSentence (pysplit (pylower (("a b c d") : String).toList))
            (("b c d z.") : String).toList < lowConfThreshold then
        String.mk (pstrip (("b c d z. a") : String).toList)
      else String.mk (pstrip (("b c d z.") : String).toList)) :=
  c7_amended ("a b c d") ("b c d z. a") ((("b c d z.") : String).toList) rfl

/-- Claim C8 (confirmed): every clause the Segmenter produces has a page
number between 1 and the 25-page cap, a text of more than 8 whitespace
tokens, and no embedded newline character (newlines are replaced by
spaces); blocks at or below the token threshold yield no clause. -/
theorem c8 (pages : List (List String)) (c : Clause)
    (h : c ∈ extract_clauses_from_pdf pages) :
    1 ≤ c.page ∧ c.page ≤ 25 ∧
    8 < (pysplit c.text.toList).length ∧ '\n' ∉ c.text.toList := by
  obtain ⟨h1, h2, h3, h4⟩ := extractPages_mem (pages.take 25) 1 c h
  refine ⟨h1, ?_, h3, h4⟩
  have := List.length_take_le 25 pages
  omega

/-- Claim C8, witness: the invariant evaluated on a one-page document with a
single nine-token block. -/
theorem c8_witness :
    1 ≤ (Clause.mk 1
        ("alpha bravo charlie delta echo foxtrot golf hotel india")).page ∧
    (Clause.mk 1
        ("alpha bravo charlie delta echo foxtrot golf hotel india")).page ≤ 25 ∧
    8 < (pysplit (Clause.mk 1
        ("alpha bravo charlie delta echo foxtrot golf hotel india")).text.toList).length ∧
    '\n' ∉ (Clause.mk 1
        ("alpha bravo charlie delta echo foxtrot golf hotel india")).text.toList :=
  c8 ([[("alpha bravo charlie delta echo foxtrot golf hotel india")]])
    (Clause.mk 1 ("alpha bravo charlie delta echo foxtrot golf hotel india"))
    (by decide)

/-- Claim C9 (confirmed): `answer_question` is deterministic — for a fixed
embedder state (two embedders with the same similarity function), two calls
with the identical question and identical clause sequence yield the identical
result. -/
theorem c9 (e1 e2 : Embedder) (q : String) (cs : List Clause)
    (h : e1.sim = e2.sim) :
    answer_question e1 q cs = answer_question e2 q cs := by
  cases e1
  cases e2
  cases h
  rfl

/-- Claim C9, witness: two runs on the same concrete embedder, question and
clause list agree. -/
theorem c9_witness :
    answer_question eConst qGrace [clause0] =
      answer_question eConst qGrace [clause0] :=
  c9 eConst eConst qGrace [clause0] rfl

/-- Claim C10 (confirmed): the response of the request handler is independent
of the authorization header — for any two header values (present, absent or
malformed) and otherwise identical requests, the handler returns the same
response, because the header parameter is accepted but never inspected. -/
theorem c10 (fetchPdf : String → Except String (List (List String)))
    (e : Embedder) (req : HackRxRequest) (a1 a2 : Option String) :
    hackrx_runner fetchPdf e req a1 = hackrx_runner fetchPdf e req a2 := rfl
